import Mathlib

/-!
# Verification of `notion-to-ical-sync`

A shallow embedding, in Lean 4, of the two Python modules of the
`notion-to-ical-sync` repository (`notion_to_ical.py` and `serve_ical.py`),
together with theorems settling the behavioural claims made by the
repository's specification.

Conventions of the embedding:
* Python `bytes` are `List Nat` with every element `< 256`.
* Python `dict`s used as ordered property bags are `List (String × _)`
  (CPython dicts preserve insertion order).
* A raised exception is modelled by an `Option`/`Except` error value; a
  function that cannot raise has a plain result type.
* Machine integers do not occur; all arithmetic in SHA-256 is `Nat`
  arithmetic reduced modulo `2 ^ 32` exactly where Python's `hashlib`
  operates on 32-bit words.
-/

namespace NotionSync

/-! ## Bytes, hex, and UTF-8 (`str.encode()` in `stable_uid`) -/

/-- One byte of a UTF-8 encoding, as a `Nat < 256`. -/
abbrev Byte := Nat

/-- UTF-8 encoding of a single Unicode code point, as Python's
`str.encode()` produces for each character. -/
def utf8Char (c : Char) : List Byte :=
  let n := c.toNat
  if n < 0x80 then [n]
  else if n < 0x800 then
    [0xC0 + n / 0x40, 0x80 + n % 0x40]
  else if n < 0x10000 then
    [0xE0 + n / 0x1000, 0x80 + (n / 0x40) % 0x40, 0x80 + n % 0x40]
  else
    [0xF0 + n / 0x40000, 0x80 + (n / 0x1000) % 0x40,
     0x80 + (n / 0x40) % 0x40, 0x80 + n % 0x40]

/-- `s.encode()`: the UTF-8 bytes of a string. -/
def utf8 (s : String) : List Byte :=
  s.data.flatMap utf8Char

/-- Lower-case hex digit for a value `< 16`. -/
def hexDigit (n : Nat) : Char :=
  if n < 10 then Char.ofNat (48 + n) else Char.ofNat (87 + n)

/-- The eight lower-case hex digits of one 32-bit word, most significant
first — the per-word piece of `hashlib`'s `hexdigest()`. -/
def hexWord32 (w : Nat) : List Char :=
  [hexDigit ((w / 0x10000000) % 16), hexDigit ((w / 0x1000000) % 16),
   hexDigit ((w / 0x100000) % 16),   hexDigit ((w / 0x10000) % 16),
   hexDigit ((w / 0x1000) % 16),     hexDigit ((w / 0x100) % 16),
   hexDigit ((w / 0x10) % 16),       hexDigit (w % 16)]

/-! ## SHA-256 (`hashlib.sha256`)

A direct transcription of FIPS 180-4 over `Nat`, every word reduced
modulo `2 ^ 32`. Only `stable_uid` uses it. -/

/-- 32-bit truncation. -/
def w32 (n : Nat) : Nat := n % 4294967296

/-- Right rotation of a 32-bit word by `r` bits. -/
def rotr32 (r x : Nat) : Nat :=
  w32 (x / 2 ^ r + x % 2 ^ r * 2 ^ (32 - r))

/-- SHA-256 round constants. -/
def sha256K : List Nat :=
  [1116352408, 1899447441, 3049323471, 3921009573, 961987163,
   1508970993, 2453635748, 2870763221, 3624381080, 310598401,
   607225278, 1426881987, 1925078388, 2162078206, 2614888103,
   3248222580, 3835390401, 4022224774, 264347078, 604807628,
   770255983, 1249150122, 1555081692, 1996064986, 2554220882,
   2821834349, 2952996808, 3210313671, 3336571891, 3584528711,
   113926993, 338241895, 666307205, 773529912, 1294757372,
   1396182291, 1695183700, 1986661051, 2177026350, 2456956037,
   2730485921, 2820302411, 3259730800, 3345764771, 3516065817,
   3600352804, 4094571909, 275423344, 430227734, 506948616,
   659060556, 883997877, 958139571, 1322822218, 1537002063,
   1747873779, 1955562222, 2024104815, 2227730452, 2361852424,
   2428436474, 2756734187, 3204031479, 3329325298]

/-- SHA-256 initial hash value. -/
def sha256H0 : List Nat :=
  [1779033703, 3144134277, 1013904242, 2773480762, 1359893119,
   2600822924, 528734635, 1541459225]

/-- Message padding: append `0x80`, zeros to 56 mod 64, then the bit
length as eight big-endian bytes. -/
def sha256Pad (msg : List Byte) : List Byte :=
  let len := msg.length
  let zeros := (55 + 64 - len % 64) % 64
  let bits := len * 8
  msg ++ [0x80] ++ List.replicate zeros 0 ++
    [(bits / 2 ^ 56) % 256, (bits / 2 ^ 48) % 256, (bits / 2 ^ 40) % 256,
     (bits / 2 ^ 32) % 256, (bits / 2 ^ 24) % 256, (bits / 2 ^ 16) % 256,
     (bits / 2 ^ 8) % 256, bits % 256]

/-- Group a byte list into big-endian 32-bit words. -/
def bytesToWords : List Byte → List Nat
  | a :: b :: c :: d :: rest =>
      (a * 0x1000000 + b * 0x10000 + c * 0x100 + d) :: bytesToWords rest
  | _ => []

/-- Split a word list into 16-word blocks. -/
def toBlocks (ws : List Nat) : List (List Nat) :=
  if h : ws.length < 16 then []
  else
    have : ws.length - 16 < ws.length := by omega
    ws.take 16 :: toBlocks (ws.drop 16)
termination_by ws.length
decreasing_by simpa using this

/-- Message-schedule extension: grow a 16-word block to 64 words. -/
def sha256Extend (w : List Nat) : Nat → List Nat
  | 0 => w
  | k + 1 =>
      let i := w.length
      let wm15 := w.getD (i - 15) 0
      let wm2  := w.getD (i - 2) 0
      let s0 := (rotr32 7 wm15) ^^^ (rotr32 18 wm15) ^^^ (wm15 / 2 ^ 3)
      let s1 := (rotr32 17 wm2) ^^^ (rotr32 19 wm2) ^^^ (wm2 / 2 ^ 10)
      sha256Extend (w ++ [w32 (w.getD (i - 16) 0 + s0 + w.getD (i - 7) 0 + s1)]) k

/-- One round of the SHA-256 compression function. -/
def sha256Round (st : List Nat) (kw : Nat × Nat) : List Nat :=
  match st with
  | [a, b, c, d, e, f, g, h] =>
      let s1 := (rotr32 6 e) ^^^ (rotr32 11 e) ^^^ (rotr32 25 e)
      let ch := (e &&& f) ^^^ ((2 ^ 32 - 1 - e) &&& g)
      let t1 := w32 (h + s1 + ch + kw.1 + kw.2)
      let s0 := (rotr32 2 a) ^^^ (rotr32 13 a) ^^^ (rotr32 22 a)
      let mj := (a &&& b) ^^^ (a &&& c) ^^^ (b &&& c)
      let t2 := w32 (s0 + mj)
      [w32 (t1 + t2), a, b, c, w32 (d + t1), e, f, g]
  | st => st

/-- Compress one 64-word schedule into the running hash. -/
def sha256Compress (hsh : List Nat) (block : List Nat) : List Nat :=
  let sched := sha256Extend block 48
  let fin := (sched.zip sha256K).foldl sha256Round hsh
  (hsh.zip fin).map fun p => w32 (p.1 + p.2)

/-- The SHA-256 digest of a byte string, as eight 32-bit words. -/
def sha256Words (msg : List Byte) : List Nat :=
  (toBlocks (bytesToWords (sha256Pad msg))).foldl sha256Compress sha256H0

/-- `hashlib.sha256(msg).hexdigest()`: the 64-character lower-case hex
digest. -/
def sha256Hexdigest (msg : List Byte) : String :=
  String.mk ((sha256Words msg).flatMap hexWord32)

/-! ## `stable_uid` (`notion_to_ical.py`, lines 70–76) -/

/-- Line 75: `raw = f"{database_id}:{page_id}"` — the digest input. -/
def uidRaw (database_id page_id : String) : String :=
  database_id ++ ":" ++ page_id

/-- Lines 70–76: `stable_uid` returns
`hashlib.sha256(raw.encode()).hexdigest() + "@notion-sync"`. -/
def stable_uid (database_id page_id : String) : String :=
  sha256Hexdigest (utf8 (uidRaw database_id page_id)) ++ "@notion-sync"

/-- Splitting a character list at a distinguished character that occurs in
neither half is unambiguous. -/
theorem append_colon_inj : ∀ {l1 l2 r1 r2 : List Char},
    ':' ∉ l1 → ':' ∉ l2 → l1 ++ ':' :: r1 = l2 ++ ':' :: r2 →
    l1 = l2 ∧ r1 = r2 := by
  intro l1
  induction l1 with
  | nil =>
    intro l2 r1 r2 _ h2 h
    cases l2 with
    | nil => simpa using h
    | cons c t =>
      simp only [List.nil_append, List.cons_append, List.cons.injEq] at h
      exact absurd (h.1 ▸ List.mem_cons_self c t) h2
  | cons c1 t1 ih =>
    intro l2 r1 r2 h1 h2 h
    cases l2 with
    | nil =>
      simp only [List.nil_append, List.cons_append, List.cons.injEq] at h
      exact absurd (h.1 ▸ List.mem_cons_self c1 t1) h1
    | cons c2 t2 =>
      simp only [List.cons_append, List.cons.injEq] at h
      have ht := ih (fun m => h1 (List.mem_cons_of_mem _ m))
        (fun m => h2 (List.mem_cons_of_mem _ m)) h.2
      exact ⟨by rw [h.1, ht.1], ht.2⟩

/-- The characters of `uidRaw`. -/
theorem uidRaw_data (d p : String) :
    (uidRaw d p).data = d.data ++ ':' :: p.data := by
  simp [uidRaw, String.data_append]

/-- When neither database id contains a colon, the digest input of
`stable_uid` determines the `(database_id, page_id)` pair. -/
theorem uidRaw_inj {d1 p1 d2 p2 : String}
    (h1 : ':' ∉ d1.data) (h2 : ':' ∉ d2.data)
    (h : uidRaw d1 p1 = uidRaw d2 p2) : d1 = d2 ∧ p1 = p2 := by
  have hd := congrArg String.data h
  rw [uidRaw_data, uidRaw_data] at hd
  have := append_colon_inj h1 h2 hd
  exact ⟨String.ext this.1, String.ext this.2⟩

/-- C1 (counterexample): the claim "for any two distinct pairs the returned
tokens differ" is false. The digest input is the colon-join
`database_id ++ ":" ++ page_id`, so the distinct pairs `("a:b", "c")` and
`("a", "b:c")` produce the same digest input `"a:b:c"` and therefore the
same uid token. -/
theorem stable_uid_not_injective :
    (("a:b", "c") : String × String) ≠ ("a", "b:c") ∧
    stable_uid "a:b" "c" = stable_uid "a" "b:c" := by
  refine ⟨by decide, ?_⟩
  have h : uidRaw "a:b" "c" = uidRaw "a" "b:c" := by decide
  simp [stable_uid, h]

/-- C1 (amended): the uid derivation is deterministic (a pure function of
the pair); any uid collision is a collision of the SHA-256 hex digests of
the two digest inputs; and when the database ids contain no colon, any two
distinct pairs have distinct digest inputs — in particular records from
two different colon-free databases sharing a native record identifier have
distinct digest inputs, so their uids differ unless SHA-256 itself
collides on distinct inputs. -/
theorem stable_uid_deterministic_and_raw_injective :
    (∀ d p : String, stable_uid d p = stable_uid d p) ∧
    (∀ d1 p1 d2 p2 : String, stable_uid d1 p1 = stable_uid d2 p2 →
      sha256Hexdigest (utf8 (uidRaw d1 p1)) =
        sha256Hexdigest (utf8 (uidRaw d2 p2))) ∧
    (∀ d1 p1 d2 p2 : String, ':' ∉ d1.data → ':' ∉ d2.data →
      (d1, p1) ≠ (d2, p2) → uidRaw d1 p1 ≠ uidRaw d2 p2) := by
  refine ⟨fun _ _ => rfl, ?_, ?_⟩
  · intro d1 p1 d2 p2 h
    have hd := congrArg String.data h
    simp only [stable_uid, String.data_append] at hd
    exact String.ext (List.append_cancel_right hd)
  · intro d1 p1 d2 p2 h1 h2 hne heq
    obtain ⟨hd, hp⟩ := uidRaw_inj h1 h2 heq
    exact hne (by rw [hd, hp])

/-- Witness for the amended C1 theorem at concrete inputs. -/
theorem stable_uid_deterministic_and_raw_injective_witness :
    stable_uid "db" "p" = stable_uid "db" "p" ∧
    (':' ∉ ("db1" : String).data ∧ ':' ∉ ("db2" : String).data ∧
      (("db1", "p") : String × String) ≠ ("db2", "p")) ∧
    uidRaw "db1" "p" ≠ uidRaw "db2" "p" :=
  ⟨stable_uid_deterministic_and_raw_injective.1 "db" "p",
   ⟨by decide, by decide, by decide⟩,
   stable_uid_deterministic_and_raw_injective.2.2 "db1" "p" "db2" "p"
     (by decide) (by decide) (by decide)⟩

/-! ## `fetch_database_pages` (`notion_to_ical.py`, lines 136–172)

The network is modelled as the sequence of outcomes of the successive
`requests.post` calls: the `i`-th issued request receives the `i`-th
element of `responses`, either a parsed JSON body or a raised
`requests` exception. The payload/cursor bookkeeping (lines 142, 169)
carries no information once the responses are given as a sequence, so it
is not reproduced. `log.error` / `log.info` calls are modelled as
entries of the returned log. -/

/-- The two exception classes caught at lines 154 and 158. -/
inductive FetchError
  | httpError (body : String)
  | requestException (msg : String)
deriving DecidableEq

/-- The fields of a query response body that lines 162–169 read. -/
structure PageResponse (α : Type) where
  results : List α
  has_more : Bool
  next_cursor : Option String
deriving DecidableEq

/-- Log entries emitted by `fetch_database_pages`. -/
inductive FetchLog
  | apiError (database_id : String) (e : FetchError)
  | fetched (n : Nat) (database_id : String)
deriving DecidableEq

/-- Line 49: `MAX_PAGES = 500   # safety cap per database`. -/
def MAX_PAGES : Nat := 500

/-- What a fetch produces: the accumulated records, the number of query
requests issued, and the log entries emitted. The result type has no
error component: the Python function always returns a list. -/
structure FetchResult (α : Type) where
  pages : List α
  requests : Nat
  logs : List FetchLog
deriving DecidableEq

/-- The `while True` loop of lines 145–169, consuming the response
stream. An exhausted stream (no Python counterpart: `requests.post`
always yields an outcome) stops with the records accumulated so far. -/
def fetchLoop {α : Type} (database_id : String) :
    List (Except FetchError (PageResponse α)) → List α → FetchResult α
  | [], pages => ⟨pages, 0, []⟩
  | .error e :: _, pages => ⟨pages, 1, [.apiError database_id e]⟩
  | .ok r :: rest, pages =>
      let pages' := pages ++ r.results
      if r.has_more = false ∨ MAX_PAGES ≤ pages'.length then ⟨pages', 1, []⟩
      else
        let res := fetchLoop database_id rest pages'
        ⟨res.pages, res.requests + 1, res.logs⟩

/-- Lines 136–172: `fetch_database_pages`. -/
def fetch_database_pages {α : Type} (database_id : String)
    (responses : List (Except FetchError (PageResponse α))) : FetchResult α :=
  let r := fetchLoop database_id responses []
  ⟨r.pages, r.requests, r.logs ++ [.fetched r.pages.length database_id]⟩

/-- C2 (counterexample): a single response carrying 501 records (with no
further pages) makes the fetch return 501 records — the cap check at
line 166 runs only after `pages.extend(results)`, so it bounds when the
loop stops, not how much the final iteration may add. -/
theorem fetch_database_pages_exceeds_cap :
    MAX_PAGES <
      (fetch_database_pages "db"
        [Except.ok ⟨List.replicate 501 (), false, none⟩]).pages.length := by
  have h : (fetchLoop "db"
      [Except.ok (⟨List.replicate 501 (), false, none⟩ : PageResponse Unit)]
      []).pages = List.replicate 501 () := by
    simp only [fetchLoop]
    rw [if_pos (Or.inl trivial), List.nil_append]
  simp only [fetch_database_pages, h, List.length_replicate, MAX_PAGES]
  omega

/-- `True` unless the argument is a successful response carrying more
than `B` records. -/
def resultsWithin {α : Type} (B : Nat) :
    Except FetchError (PageResponse α) → Bool
  | .ok r => r.results.length ≤ B
  | .error _ => true

/-- Loop invariant for the amended C2 bound: entering an iteration with
fewer than `MAX_PAGES` accumulated records, the loop returns fewer than
`MAX_PAGES + B` records when every response carries at most `B`. -/
theorem fetchLoop_length_lt {α : Type} (database_id : String) (B : Nat) :
    ∀ (resps : List (Except FetchError (PageResponse α))) (pages : List α),
    (∀ x ∈ resps, resultsWithin B x = true) →
    pages.length < MAX_PAGES →
    (fetchLoop database_id resps pages).pages.length < MAX_PAGES + B := by
  intro resps
  induction resps with
  | nil => intro pages _ hlt; exact Nat.lt_of_lt_of_le hlt (Nat.le_add_right _ _)
  | cons x rest ih =>
    intro pages hB hlt
    match x with
    | .error e => exact Nat.lt_of_lt_of_le hlt (Nat.le_add_right _ _)
    | .ok r =>
      have hr : r.results.length ≤ B := by
        have := hB _ (List.mem_cons_self _ _)
        simpa [resultsWithin] using this
      have hlen : (pages ++ r.results).length < MAX_PAGES + B := by
        rw [List.length_append]; omega
      simp only [fetchLoop]
      split
      · exact hlen
      · next hcond =>
        have hlt' : (pages ++ r.results).length < MAX_PAGES := by
          rcases Nat.lt_or_ge (pages ++ r.results).length MAX_PAGES with h | h
          · exact h
          · exact absurd (Or.inr h) hcond
        exact ih (pages ++ r.results)
          (fun x' hm => hB x' (List.mem_cons_of_mem _ hm)) hlt'

/-- C2 (amended): the fetch returns fewer than `MAX_PAGES + B` records
whenever every single response carries at most `B` records; the cap
bounds the accumulated count at the start of each iteration, so the
total can overshoot `MAX_PAGES` only by what the final consumed response
adds. -/
theorem fetch_database_pages_bounded {α : Type} (database_id : String)
    (resps : List (Except FetchError (PageResponse α))) (B : Nat)
    (hB : ∀ x ∈ resps, resultsWithin B x = true) :
    (fetch_database_pages database_id resps).pages.length < MAX_PAGES + B :=
  fetchLoop_length_lt database_id B resps [] hB (by simp [MAX_PAGES])

/-- Witness for the amended C2 bound at a concrete response stream. -/
theorem fetch_database_pages_bounded_witness :
    (∀ x ∈ [Except.ok (⟨[1, 2], true, some "c"⟩ : PageResponse Nat),
        Except.ok ⟨[3], false, none⟩], resultsWithin 2 x = true) ∧
    (fetch_database_pages "db"
      [Except.ok (⟨[1, 2], true, some "c"⟩ : PageResponse Nat),
       Except.ok ⟨[3], false, none⟩]).pages.length < MAX_PAGES + 2 :=
  ⟨by decide, fetch_database_pages_bounded "db" _ 2 (by decide)⟩

/-- Loop lemma for C7: if the loop reaches a failing request (every
earlier response signals more pages and keeps the accumulated count
below the cap), it stops there with the records accumulated so far and
one error log entry, never touching the rest of the stream. -/
theorem fetchLoop_error {α : Type} (database_id : String) (e : FetchError)
    (rest : List (Except FetchError (PageResponse α))) :
    ∀ (pref : List (PageResponse α)) (pages : List α),
    (∀ r ∈ pref, r.has_more = true) →
    (pages ++ (pref.map PageResponse.results).flatten).length < MAX_PAGES →
    fetchLoop database_id (pref.map Except.ok ++ Except.error e :: rest) pages =
      ⟨pages ++ (pref.map PageResponse.results).flatten, pref.length + 1,
       [FetchLog.apiError database_id e]⟩ := by
  intro pref
  induction pref with
  | nil => intro pages _ _; simp [fetchLoop]
  | cons r pref ih =>
    intro pages hmore hlen
    have hm : r.has_more = true := hmore r (List.mem_cons_self _ _)
    have hassoc : pages ++ ((r :: pref).map PageResponse.results).flatten =
        (pages ++ r.results) ++ (pref.map PageResponse.results).flatten := by
      simp [List.append_assoc]
    rw [hassoc] at hlen
    have hlt : (pages ++ r.results).length < MAX_PAGES := by
      simp only [List.length_append] at hlen ⊢
      omega
    simp only [List.map_cons, List.cons_append, fetchLoop, hm, List.append_eq]
    rw [if_neg]
    · rw [ih (pages ++ r.results) (fun x hx => hmore x (List.mem_cons_of_mem _ hx)) hlen]
      simp [List.append_assoc]
    · rintro (h | h)
      · exact Bool.true_eq_false.mp h
      · exact absurd hlt (Nat.not_lt.mpr h)


/-- C7: when the `j`-th request fails (every earlier response reports
more pages and keeps the count under the cap, so the loop actually
reaches it), the fetch stops at that request: it issues exactly `j + 1`
requests, returns precisely the records of the earlier successful pages,
logs the failure, and — the result type being a plain `FetchResult` —
propagates no exception. The right-hand side does not mention `rest`, so
no request beyond the failing one is ever issued. -/
theorem fetch_database_pages_abort_on_error {α : Type} (database_id : String)
    (pref : List (PageResponse α)) (e : FetchError)
    (rest : List (Except FetchError (PageResponse α)))
    (hmore : ∀ r ∈ pref, r.has_more = true)
    (hlen : ((pref.map PageResponse.results).flatten).length < MAX_PAGES) :
    fetch_database_pages database_id
        (pref.map Except.ok ++ Except.error e :: rest) =
      ⟨(pref.map PageResponse.results).flatten, pref.length + 1,
       [FetchLog.apiError database_id e,
        FetchLog.fetched ((pref.map PageResponse.results).flatten).length
          database_id]⟩ := by
  unfold fetch_database_pages
  rw [fetchLoop_error database_id e rest pref [] hmore (by simpa using hlen)]
  simp

/-- Witness for C7: one successful page, then a failing request, then a
further page that is never requested. -/
theorem fetch_database_pages_abort_on_error_witness :
    (∀ r ∈ [(⟨[1, 2], true, some "c"⟩ : PageResponse Nat)], r.has_more = true) ∧
    (([(⟨[1, 2], true, some "c"⟩ : PageResponse Nat)].map
        PageResponse.results).flatten).length < MAX_PAGES ∧
    fetch_database_pages "db"
        ([(⟨[1, 2], true, some "c"⟩ : PageResponse Nat)].map Except.ok ++
          Except.error (FetchError.httpError "500") ::
            [Except.ok ⟨[9], false, none⟩]) =
      ⟨[1, 2], 2, [FetchLog.apiError "db" (FetchError.httpError "500"),
        FetchLog.fetched 2 "db"]⟩ :=
  ⟨by decide, by decide, by
    rw [fetch_database_pages_abort_on_error "db" _ _ _ (by decide) (by decide)]
    decide⟩


/-! ## Property bags (`notion_to_ical.py`, lines 79–129)

A Notion page's `properties` dict is an ordered mapping from property
name to a type-tagged value. `PropValue` carries the type discriminator
and every payload key the program reads, each field holding what
`dict.get` would yield when the key is absent. -/

/-- One element of a Notion `rich_text` array; only `plain_text` is
read (line 81). -/
structure RichSeg where
  plain_text : String
deriving DecidableEq

/-- The payload of a `date`-typed property: `start`/`end` strings, with
`none` for JSON null or a missing key. -/
structure DatePayload where
  startStr : Option String
  endStr : Option String
deriving DecidableEq

/-- A property value as the program reads it: the `type` tag and the
payloads accessed via `.get`. A null or absent `date` payload is `none`
(a present payload object is non-empty, hence truthy in Python). -/
structure PropValue where
  type : String
  title : List RichSeg := []
  date : Option DatePayload := none
  rich_text : List RichSeg := []
deriving DecidableEq

/-- A `properties` dict, in insertion order. -/
abbrev PropBag := List (String × PropValue)

/-- Lines 79–81: `extract_plain_text` concatenates the `plain_text` of
each segment with no separator. -/
def extract_plain_text (rich_text_list : List RichSeg) : String :=
  String.join (rich_text_list.map RichSeg.plain_text)

/-- `name.lower()`: Python's ASCII-relevant lower-casing, over the
string's characters. -/
def lowerName (s : String) : String :=
  String.mk (s.data.map Char.toLower)

/-- `c in s` for a single character, over the string's characters. -/
def containsChar (s : String) (c : Char) : Bool :=
  s.data.contains c

/-- Line 90: the preferred date-property names. -/
def preferredDateNames : List String :=
  ["date", "due", "when", "event date", "start", "deadline"]

/-- Lines 91–94: a property enters `date_props` iff its type tag is
`"date"` and its `date` payload is truthy (non-null). -/
def isDateProp (v : PropValue) : Bool :=
  v.type == "date" && v.date.isSome

/-- Lines 84–102: `find_date_property`. The Python function returns
`(name, value) | (None, None)`; the pair-or-nothing is an `Option`
here. First pass: the first `date_props` entry whose lower-cased name
is preferred; second pass: the first `date_props` entry. -/
def find_date_property (properties : PropBag) : Option (String × PropValue) :=
  let date_props := properties.filter fun p => isDateProp p.2
  match date_props.find? (fun p => preferredDateNames.contains (lowerName p.1)) with
  | some p => some p
  | none => date_props.head?

/-- Line 110–111: property types the description fallback skips. -/
def skipTypes : List String :=
  ["title", "date", "checkbox", "select", "multi_select",
   "number", "formula", "relation", "rollup", "files"]

/-- Line 112: property types treated as text. -/
def textTypes : List String := ["rich_text", "text"]

/-- Line 113: preferred description property names. -/
def descCandidates : List String :=
  ["notes", "description", "details", "summary", "body", "content"]

/-- Lines 105–129: `find_description_property`. Each loop skips a
matching property whose extracted text is empty and keeps scanning, so
each pass is a search for the first match with non-empty text. -/
def find_description_property (properties : PropBag) : String :=
  match properties.find? (fun p =>
      (descCandidates.contains (lowerName p.1) && textTypes.contains p.2.type)
        && !(extract_plain_text p.2.rich_text == "")) with
  | some p => extract_plain_text p.2.rich_text
  | none =>
    match properties.find? (fun p =>
        (textTypes.contains p.2.type && !skipTypes.contains p.2.type)
          && !(extract_plain_text p.2.rich_text == "")) with
    | some p => extract_plain_text p.2.rich_text
    | none => ""

/-! ## Dates (`datetime.fromisoformat`, `strptime`, lines 223–234) -/

/-- A calendar date. -/
structure DateOnly where
  year : Nat
  month : Nat
  day : Nat
deriving DecidableEq

/-- A `datetime.datetime`: date, time of day, microseconds, and the UTC
offset in minutes (`none` models a naive datetime, `tzinfo is None`). -/
structure DateTime where
  date : DateOnly
  hour : Nat
  minute : Nat
  second : Nat
  microsecond : Nat
  tz : Option Int
deriving DecidableEq

/-- The tagged date value of the specification's data model: either an
all-day calendar date (`datetime.date`) or a timed instant
(`datetime.datetime`). -/
inductive DateValue
  | allDay (d : DateOnly)
  | instant (dt : DateTime)
deriving DecidableEq

/-- Gregorian leap year. -/
def isLeapYear (y : Nat) : Bool :=
  y % 4 == 0 && (y % 100 != 0 || y % 400 == 0)

/-- Days in a month, as `datetime` validates them. -/
def daysInMonth (y m : Nat) : Nat :=
  if m == 2 then (if isLeapYear y then 29 else 28)
  else if m == 4 || m == 6 || m == 9 || m == 11 then 30
  else 31

/-- The range checks `datetime.date` performs. -/
def validDate (d : DateOnly) : Bool :=
  1 ≤ d.year && d.year ≤ 9999 && 1 ≤ d.month && d.month ≤ 12 &&
    1 ≤ d.day && d.day ≤ daysInMonth d.year d.month

/-- The numeric value of a decimal digit, `none` otherwise. -/
def digit? (c : Char) : Option Nat :=
  if '0' ≤ c && c ≤ '9' then some (c.toNat - 48) else none

/-- Exactly `n` decimal digits, returning their value and the rest. -/
def parseDigits : Nat → Nat → List Char → Option (Nat × List Char)
  | 0, acc, cs => some (acc, cs)
  | n + 1, acc, c :: cs =>
      match digit? c with
      | some d => parseDigits n (acc * 10 + d) cs
      | none => none
  | _ + 1, _, [] => none

/-- A `YYYY-MM-DD` prefix. -/
def parseYmd (cs : List Char) : Option (DateOnly × List Char) :=
  match parseDigits 4 0 cs with
  | some (y, '-' :: cs1) =>
      match parseDigits 2 0 cs1 with
      | some (m, '-' :: cs2) =>
          match parseDigits 2 0 cs2 with
          | some (d, cs3) => some (⟨y, m, d⟩, cs3)
          | none => none
      | _ => none
  | _ => none

/-- A fractional-seconds suffix `.d+`, as microseconds (at most six
digits are significant). -/
def parseFrac : List Char → Option (Nat × List Char)
  | '.' :: cs =>
      let digs := cs.takeWhile fun c => (digit? c).isSome
      if digs.length == 0 then none
      else
        let v := digs.foldl (fun a c => a * 10 + ((digit? c).getD 0)) 0
        let us := if digs.length ≤ 6 then v * 10 ^ (6 - digs.length)
          else v / 10 ^ (digs.length - 6)
        some (us, cs.drop digs.length)
  | cs => some (0, cs)

/-- A trailing UTC-offset suffix: nothing (naive), `Z`/`z`, or
`±HH:MM`; the offset is returned in minutes. -/
def parseOffset : List Char → Option (Option Int)
  | [] => some none
  | ['Z'] => some (some 0)
  | ['z'] => some (some 0)
  | sign :: cs =>
      if sign == '+' || sign == '-' then
        match parseDigits 2 0 cs with
        | some (h, ':' :: cs1) =>
            match parseDigits 2 0 cs1 with
            | some (m, []) =>
                if h < 24 && m < 60 then
                  let v : Int := Int.ofNat (h * 60 + m)
                  some (some (if sign == '-' then -v else v))
                else none
            | _ => none
        | _ => none
      else none

/-- An `HH:MM[:SS[.ffffff]]` time-of-day prefix. -/
def parseTod (cs : List Char) : Option ((Nat × Nat × Nat × Nat) × List Char) :=
  match parseDigits 2 0 cs with
  | some (hh, ':' :: cs1) =>
      match parseDigits 2 0 cs1 with
      | some (mm, ':' :: cs2) =>
          match parseDigits 2 0 cs2 with
          | some (ss, cs3) =>
              match parseFrac cs3 with
              | some (us, cs4) => some ((hh, mm, ss, us), cs4)
              | none => none
          | none => none
      | some (mm, cs2) => some ((hh, mm, 0, 0), cs2)
      | none => none
  | _ => none

/-- `datetime.fromisoformat`: a date, optionally followed by `T`, a
time of day and a UTC offset. Out-of-range fields raise (`none`). -/
def fromisoformat (s : String) : Option DateTime :=
  match parseYmd s.data with
  | some (d, []) =>
      if validDate d then some ⟨d, 0, 0, 0, 0, none⟩ else none
  | some (d, 'T' :: cs) =>
      match parseTod cs with
      | some ((hh, mm, ss, us), cs1) =>
          match parseOffset cs1 with
          | some tz =>
              if validDate d && hh < 24 && mm < 60 && ss < 60 then
                some ⟨d, hh, mm, ss, us, tz⟩
              else none
          | none => none
      | none => none
  | _ => none

/-- `datetime.strptime(date_str, "%Y-%m-%d").date()`: the whole string
must be one calendar date. -/
def strptimeYmd (s : String) : Option DateOnly :=
  match parseYmd s.data with
  | some (d, []) => if validDate d then some d else none
  | _ => none

/-- Lines 223–234: `parse_notion_date`. The `(value, is_all_day)` pair
is the tag of `DateValue`; a `ValueError` is `none`. A string
containing `T` is parsed as a datetime and, only when naive, stamped
UTC; otherwise it must be a plain `YYYY-MM-DD` date. -/
def parse_notion_date (date_str : String) : Option DateValue :=
  if containsChar date_str 'T' then
    match fromisoformat date_str with
    | some dt =>
        some (.instant (if dt.tz.isNone then { dt with tz := some 0 } else dt))
    | none => none
  else
    (strptimeYmd date_str).map .allDay

/-! ## `page_to_event` (`notion_to_ical.py`, lines 195–275) -/

/-- A Notion page as the program reads it: its `id`, its `properties`
bag, and `last_edited_time` (`none` for an absent key). -/
structure RawPage where
  id : String
  properties : PropBag
  last_edited_time : Option String
deriving DecidableEq

/-- The calendar event the mapper builds, one field per `event.add`
call of lines 245–273, in order. -/
structure Event where
  summary : String
  uid : String
  dtstamp : DateTime
  description : String
  dtstart : DateValue
  dtend : Option DateValue
  lastModified : Option DateTime
deriving DecidableEq

/-- `s.replace("-", "")`. -/
def stripHyphens (s : String) : String :=
  String.mk (s.data.filter fun c => !(c == '-'))

/-- Lines 204–208: the raw title is the `title` payload of the first
`title`-typed property, `""` when there is none. -/
def rawTitle (properties : PropBag) : String :=
  match properties.find? (fun p => p.2.type == "title") with
  | some p => extract_plain_text p.2.title
  | none => ""

/-- Line 209: `title.strip() or "Untitled"`. -/
def pageTitle (properties : PropBag) : String :=
  let t := (rawTitle properties).trim
  if t == "" then "Untitled" else t

/-- Lines 237–239: parse the optional `end` string; absent or falsy
(empty) means no end, a malformed one raises. -/
def parseEndField : Option String → Except Unit (Option DateValue)
  | none => .ok none
  | some e =>
      if e == "" then .ok none
      else
        match parse_notion_date e with
        | some v => .ok (some v)
        | none => .error ()

/-- Lines 257–266: the `dtstart`/`dtend` pair. In the all-day branch
the end defaults to the start; in the timed branch an absent end stays
absent. The parsed end value is used as-is in both branches. -/
def mkRange (startV : DateValue) (endV : Option DateValue) :
    DateValue × Option DateValue :=
  match startV with
  | .allDay _ => (startV, some (endV.getD startV))
  | .instant _ => (startV, endV)

/-- Lines 250–255: the description, with the Notion deep link appended
(the link alone when no description text was found). -/
def descWithLink (properties : PropBag) (page_id : String) : String :=
  let description := find_description_property properties
  let notion_url := "https://notion.so/" ++ stripHyphens page_id
  if description == "" then "🔗 " ++ notion_url
  else description ++ "\n\n🔗 " ++ notion_url

/-- Lines 269–273: parse `last_edited_time` with `"Z"` replaced by
`"+00:00"`; a falsy value is skipped, a malformed one raises. -/
def lastModifiedOf : Option String → Except Unit (Option DateTime)
  | none => .ok none
  | some s =>
      if s == "" then .ok none
      else
        match fromisoformat
            (String.mk (s.data.flatMap fun c =>
              if c == 'Z' then "+00:00".data else [c])) with
        | some dt => .ok (some dt)
        | none => .error ()

/-- Lines 195–275: `page_to_event`. `Except.ok none` is the Python
`return None` (page skipped); `Except.error ()` is an uncaught
`ValueError` from date parsing; `now` is `datetime.now(timezone.utc)`
at the `dtstamp` call. -/
def page_to_event (page : RawPage) (database_id : String) (now : DateTime) :
    Except Unit (Option Event) :=
  let properties := page.properties
  let page_id := page.id
  match find_date_property properties with
  | none => .ok none
  | some (_name, date_prop) =>
      let date_value := date_prop.date.getD ⟨none, none⟩
      match date_value.startStr with
      | none => .ok none
      | some start_str =>
          if start_str == "" then .ok none
          else
            match parse_notion_date start_str with
            | none => .error ()
            | some startV =>
                match parseEndField date_value.endStr with
                | .error _ => .error ()
                | .ok endV =>
                    match lastModifiedOf page.last_edited_time with
                    | .error _ => .error ()
                    | .ok lm =>
                        .ok (some
                          { summary := pageTitle properties
                            uid := stable_uid database_id page_id
                            dtstamp := now
                            description := descWithLink properties page_id
                            dtstart := (mkRange startV endV).1
                            dtend := (mkRange startV endV).2
                            lastModified := lm })


/-! ## C8: the date-property resolution rule -/

/-- Finding among the kept elements is finding with the conjunction. -/
theorem find?_filter_eq {α : Type} (l : List α) (q r : α → Bool) :
    (l.filter q).find? r = l.find? fun a => q a && r a := by
  induction l with
  | nil => rfl
  | cons x l ih =>
    cases hq : q x <;> cases hr : r x <;>
      simp [List.filter_cons, List.find?_cons, hq, hr, ih]

/-- The head of a filtered list is the first element satisfying the
predicate. -/
theorem head?_filter_eq {α : Type} (l : List α) (q : α → Bool) :
    (l.filter q).head? = l.find? q := by
  induction l with
  | nil => rfl
  | cons x l ih =>
    cases hq : q x <;> simp [List.filter_cons, List.find?_cons, hq, ih]

/-- Some kept element satisfies `r` iff some element satisfies both. -/
theorem any_filter_eq {α : Type} (l : List α) (q r : α → Bool) :
    (l.filter q).any r = l.any fun a => q a && r a := by
  induction l with
  | nil => rfl
  | cons x l ih =>
    cases hq : q x <;> simp [List.filter_cons, hq, ih]

/-- The date-property resolution rule in the specification's words:
only properties whose type tag is `date` with a non-null value are
considered; if any of them bears a preferred lower-cased name, the
first such property in bag iteration order wins; otherwise the first
date-typed property in bag iteration order; otherwise nothing. -/
def find_date_property_spec (properties : PropBag) :
    Option (String × PropValue) :=
  if (properties.filter fun p => isDateProp p.2).any
      (fun p => preferredDateNames.contains (lowerName p.1)) then
    properties.find? fun p =>
      isDateProp p.2 && preferredDateNames.contains (lowerName p.1)
  else
    properties.find? fun p => isDateProp p.2

/-- C8: on every property bag the resolver behaves exactly as the
specification describes (`find_date_property_spec`), and a page on
which it finds nothing is dropped by the mapper without error
(`return None`, never a raised exception). -/
theorem find_date_property_follows_spec :
    (∀ properties : PropBag,
      find_date_property properties = find_date_property_spec properties) ∧
    (∀ (page : RawPage) (database_id : String) (now : DateTime),
      find_date_property page.properties = none →
      page_to_event page database_id now = Except.ok none) := by
  constructor
  · intro props
    simp only [find_date_property, find_date_property_spec]
    rw [find?_filter_eq, head?_filter_eq, any_filter_eq]
    cases h : props.find? (fun p =>
        isDateProp p.2 && preferredDateNames.contains (lowerName p.1)) with
    | none =>
      have ha : (props.any fun p =>
          isDateProp p.2 && preferredDateNames.contains (lowerName p.1)) = false := by
        rw [List.find?_eq_none] at h
        cases hb : props.any fun p =>
            isDateProp p.2 && preferredDateNames.contains (lowerName p.1) with
        | false => rfl
        | true =>
          obtain ⟨x, hx, hpx⟩ := List.any_eq_true.mp hb
          exact absurd hpx (h x hx)
      rw [ha]
      simp
    | some p =>
      have hmem := List.mem_of_find?_eq_some h
      have hp := List.find?_some h
      have ha : (props.any fun p =>
          isDateProp p.2 && preferredDateNames.contains (lowerName p.1)) = true :=
        List.any_eq_true.mpr ⟨p, hmem, hp⟩
      rw [ha]
      simp
  · intro page database_id now h
    simp [page_to_event, h]

/-- A concrete bag exercising C8: a non-preferred date property listed
before a preferred one (`"due"` wins although `"Timeline"` comes
first), and a dateless page that is skipped. -/
def c8Bag : PropBag :=
  [("Name", { type := "title", title := [⟨"T"⟩] }),
   ("Timeline", { type := "date", date := some ⟨some "2026-01-01", none⟩ }),
   ("Due", { type := "date", date := some ⟨some "2026-02-02", none⟩ })]

/-- A fixed `datetime.now(timezone.utc)` value for witnesses. -/
def witNow : DateTime := ⟨⟨2026, 1, 1⟩, 0, 0, 0, 0, some 0⟩

/-- Witness for C8: the resolver agrees with the specification rule on
`c8Bag`, and a page with no date-typed property maps to a skip. -/
theorem find_date_property_follows_spec_witness :
    find_date_property c8Bag = find_date_property_spec c8Bag ∧
    page_to_event ⟨"p1", [("Name", { type := "title", title := [⟨"T"⟩] })], none⟩
        "db" witNow = Except.ok none :=
  ⟨find_date_property_follows_spec.1 c8Bag,
   find_date_property_follows_spec.2
     ⟨"p1", [("Name", { type := "title", title := [⟨"T"⟩] })], none⟩
     "db" witNow (by decide)⟩

/-! ## C5 and C6: date normalization and the tag invariant -/

/-- When the resolver, the start/end fields and `last_edited_time` are
all fixed, `page_to_event` succeeds with the event the code builds. -/
theorem page_to_event_eq (page : RawPage) (database_id : String)
    (now : DateTime) (name : String) (dp : PropValue) (dv : DatePayload)
    (start_str : String) (startV : DateValue) (endV : Option DateValue)
    (lm : Option DateTime)
    (hf : find_date_property page.properties = some (name, dp))
    (hd : dp.date = some dv)
    (hs : dv.startStr = some start_str)
    (hne : (start_str == "") = false)
    (hps : parse_notion_date start_str = some startV)
    (hend : parseEndField dv.endStr = .ok endV)
    (hlm : lastModifiedOf page.last_edited_time = .ok lm) :
    page_to_event page database_id now = .ok (some
      { summary := pageTitle page.properties
        uid := stable_uid database_id page.id
        dtstamp := now
        description := descWithLink page.properties page.id
        dtstart := (mkRange startV endV).1
        dtend := (mkRange startV endV).2
        lastModified := lm }) := by
  simp only [page_to_event, hf, hd, Option.getD_some, hs, hne, hps, hend, hlm,
    Bool.false_eq_true, if_false]

/-- An empty string never parses as a date. -/
theorem parse_notion_date_empty : parse_notion_date "" = none := rfl

/-- A start string that parses successfully is non-empty. -/
theorem parse_some_ne_empty {s : String} {v : DateValue}
    (h : parse_notion_date s = some v) : (s == "") = false := by
  cases hb : s == "" with
  | false => rfl
  | true =>
    have hse : s = "" := eq_of_beq hb
    rw [hse, parse_notion_date_empty] at h
    exact Option.noConfusion h

/-- A present parsed end value is passed through `mkRange` unchanged,
whatever the tags of start and end. -/
theorem mkRange_some (sv e : DateValue) : mkRange sv (some e) = (sv, some e) := by
  cases sv <;> rfl

/-- An absent end with an all-day start yields `end = start`. -/
theorem mkRange_allDay_none (d : DateOnly) :
    mkRange (.allDay d) none = (.allDay d, some (.allDay d)) := rfl

/-- C5 (counterexample): a time-of-day string with an explicit `+05:00`
offset normalizes to an instant carrying that offset (300 minutes), not
to UTC — line 228 re-stamps only naive datetimes, aware ones keep their
zone. So "yields a timed instant in UTC" fails as stated. -/
theorem parse_notion_date_not_utc :
    parse_notion_date "2026-01-01T10:00:00+05:00" =
      some (DateValue.instant ⟨⟨2026, 1, 1⟩, 10, 0, 0, 0, some 300⟩) ∧
    (some (300 : Int) ≠ some (0 : Int)) := ⟨by decide, by decide⟩

/-- C5 (amended): a successfully parsed string containing a time
component yields a timezone-aware instant — with offset UTC exactly
when the string carries no explicit offset, and the string\'s own
offset otherwise; a successfully parsed string without a time component
yields an all-day date; and an all-day start with no end string
produces an event whose end equals its start. -/
theorem parse_notion_date_normalization :
    (∀ (s : String) (v : DateValue), parse_notion_date s = some v →
      containsChar s 'T' = true →
      ∃ dt, v = DateValue.instant dt ∧ dt.tz.isSome) ∧
    (∀ (s : String) (dt : DateTime), containsChar s 'T' = true →
      fromisoformat s = some dt → dt.tz = none →
      parse_notion_date s = some (.instant { dt with tz := some 0 })) ∧
    (∀ (s : String) (v : DateValue), parse_notion_date s = some v →
      containsChar s 'T' = false → ∃ d, v = DateValue.allDay d) ∧
    (∀ (page : RawPage) (database_id : String) (now : DateTime)
        (name : String) (dp : PropValue) (dv : DatePayload)
        (ss : String) (d : DateOnly) (ev : Event),
      find_date_property page.properties = some (name, dp) →
      dp.date = some dv →
      dv.startStr = some ss →
      parse_notion_date ss = some (.allDay d) →
      dv.endStr = none →
      page_to_event page database_id now = .ok (some ev) →
      ev.dtstart = .allDay d ∧ ev.dtend = some (.allDay d)) := by
  refine ⟨?_, ?_, ?_, ?_⟩
  · intro s v h hT
    simp only [parse_notion_date, hT, if_true] at h
    cases hf : fromisoformat s with
    | none => rw [hf] at h; exact Option.noConfusion h
    | some dt =>
      rw [hf] at h
      have hv : v = DateValue.instant
          (if dt.tz.isNone then { dt with tz := some 0 } else dt) :=
        (Option.some.inj h).symm
      cases htz : dt.tz with
      | none => exact ⟨{ dt with tz := some 0 }, by simp [hv, htz], by simp⟩
      | some z => exact ⟨dt, by simp [hv, htz], by simp [htz]⟩
  · intro s dt hT hf hn
    simp [parse_notion_date, hT, hf, hn]
  · intro s v h hT
    simp only [parse_notion_date, hT, Bool.false_eq_true, if_false] at h
    cases hs : strptimeYmd s with
    | none => rw [hs] at h; exact Option.noConfusion h
    | some d =>
      rw [hs] at h
      exact ⟨d, (Option.some.inj h).symm⟩
  · intro page database_id now name dp dv ss d ev hf hd hs hps hendN hev
    have hne : (ss == "") = false := parse_some_ne_empty hps
    have hend : parseEndField dv.endStr = .ok none := by
      rw [hendN]; rfl
    cases hlmc : lastModifiedOf page.last_edited_time with
    | error e =>
      exfalso
      have : page_to_event page database_id now = .error () := by
        simp only [page_to_event, hf, hd, Option.getD_some, hs, hne, hps, hend,
          Bool.false_eq_true, if_false, hlmc]
      rw [this] at hev
      exact Except.noConfusion hev
    | ok lm =>
      have heq := page_to_event_eq page database_id now name dp dv ss
        (.allDay d) none lm hf hd hs hne hps hend hlmc
      rw [heq] at hev
      have hev2 := Option.some.inj (Except.ok.inj hev)
      rw [← hev2, mkRange_allDay_none]
      exact ⟨rfl, rfl⟩

/-- A page whose only date property is an all-day start with no end. -/
def c5Page : RawPage :=
  ⟨"p-5", [("When", { type := "date", date := some ⟨some "2026-03-04", none⟩ })],
   none⟩

/-- The event `page_to_event` builds from `c5Page`. -/
def c5Event : Event :=
  { summary := pageTitle c5Page.properties
    uid := stable_uid "db" c5Page.id
    dtstamp := witNow
    description := descWithLink c5Page.properties c5Page.id
    dtstart := DateValue.allDay ⟨2026, 3, 4⟩
    dtend := some (DateValue.allDay ⟨2026, 3, 4⟩)
    lastModified := none }

/-- Witness for the amended C5 theorem: each conjunct applied at a
concrete input. -/
theorem parse_notion_date_normalization_witness :
    (∃ dt, DateValue.instant ⟨⟨2026, 1, 1⟩, 10, 0, 0, 0, some 300⟩ =
        DateValue.instant dt ∧ dt.tz.isSome) ∧
    parse_notion_date "2026-01-01T10:00:00" =
      some (.instant { (⟨⟨2026, 1, 1⟩, 10, 0, 0, 0, none⟩ : DateTime) with
        tz := some 0 }) ∧
    (∃ d, DateValue.allDay ⟨2026, 3, 4⟩ = DateValue.allDay d) ∧
    (c5Event.dtstart = .allDay ⟨2026, 3, 4⟩ ∧
      c5Event.dtend = some (.allDay ⟨2026, 3, 4⟩)) :=
  ⟨parse_notion_date_normalization.1 "2026-01-01T10:00:00+05:00" _
      (by decide) (by decide),
   parse_notion_date_normalization.2.1 "2026-01-01T10:00:00"
      ⟨⟨2026, 1, 1⟩, 10, 0, 0, 0, none⟩ (by decide) (by decide) (by decide),
   parse_notion_date_normalization.2.2.1 "2026-03-04" _ (by decide) (by decide),
   parse_notion_date_normalization.2.2.2 c5Page "db" witNow "When"
      { type := "date", date := some ⟨some "2026-03-04", none⟩ }
      ⟨some "2026-03-04", none⟩ "2026-03-04" ⟨2026, 3, 4⟩ c5Event
      (by decide) rfl rfl (by decide) rfl rfl⟩

/-- The successfully built event of a mapper result, `none` for a skip
or a raised error. -/
def eventOf : Except Unit (Option Event) → Option Event
  | .ok (some e) => some e
  | _ => none

/-- Whether an event\'s start and end carry the same all-day/instant
tag (vacuously true with no end). -/
def tagsMatch (e : Event) : Bool :=
  match e.dtend with
  | none => true
  | some (.allDay _) =>
      match e.dtstart with
      | .allDay _ => true
      | .instant _ => false
  | some (.instant _) =>
      match e.dtstart with
      | .instant _ => true
      | .allDay _ => false

/-- A page with an all-day start and a timed end — mismatched tags. -/
def c6Page : RawPage :=
  ⟨"abc-123",
   [("Date",
     { type := "date",
       date := some ⟨some "2026-01-01", some "2026-01-02T10:00:00"⟩ })],
   none⟩

/-- C6 (counterexample): on `c6Page` the mapper produces an event with
an all-day start and an instant end — line 239 discards the end\'s
`is_all_day` flag and lines 259/266 attach the parsed end object as-is,
so mismatched tags are not normalized. -/
theorem page_to_event_mixed_tags :
    (eventOf (page_to_event c6Page "db" witNow)).map tagsMatch = some false := by
  decide

/-- C6 (amended): the end of the produced range keeps exactly the tag
its own string format implies, independent of the start\'s tag — the
produced event\'s `dtend` is the independently parsed end value, with
no truncation/expansion to the start\'s tag (matching §4.3 of the
specification, which contradicts the §3 invariant on this point). -/
theorem page_to_event_end_keeps_own_tag :
    ∀ (page : RawPage) (database_id : String) (now : DateTime)
      (name : String) (dp : PropValue) (dv : DatePayload)
      (ss es : String) (sv ev0 : DateValue) (ev : Event),
    find_date_property page.properties = some (name, dp) →
    dp.date = some dv →
    dv.startStr = some ss →
    parse_notion_date ss = some sv →
    dv.endStr = some es →
    parse_notion_date es = some ev0 →
    page_to_event page database_id now = .ok (some ev) →
    ev.dtstart = sv ∧ ev.dtend = some ev0 := by
  intro page database_id now name dp dv ss es sv ev0 ev hf hd hs hps hes hpe hev
  have hne : (ss == "") = false := parse_some_ne_empty hps
  have hnee : (es == "") = false := parse_some_ne_empty hpe
  have hend : parseEndField dv.endStr = .ok (some ev0) := by
    rw [hes]
    simp only [parseEndField, hnee, Bool.false_eq_true, if_false, hpe]
  cases hlmc : lastModifiedOf page.last_edited_time with
  | error e =>
    exfalso
    have : page_to_event page database_id now = .error () := by
      simp only [page_to_event, hf, hd, Option.getD_some, hs, hne, hps, hend,
        Bool.false_eq_true, if_false, hlmc]
    rw [this] at hev
    exact Except.noConfusion hev
  | ok lm =>
    have heq := page_to_event_eq page database_id now name dp dv ss
      sv (some ev0) lm hf hd hs hne hps hend hlmc
    rw [heq] at hev
    have hev2 := Option.some.inj (Except.ok.inj hev)
    rw [← hev2, mkRange_some]
    exact ⟨rfl, rfl⟩

/-- The event `page_to_event` builds from `c6Page`. -/
def c6Event : Event :=
  { summary := pageTitle c6Page.properties
    uid := stable_uid "db" c6Page.id
    dtstamp := witNow
    description := descWithLink c6Page.properties c6Page.id
    dtstart := DateValue.allDay ⟨2026, 1, 1⟩
    dtend := some (DateValue.instant ⟨⟨2026, 1, 2⟩, 10, 0, 0, 0, some 0⟩)
    lastModified := none }

/-- Witness for the amended C6 theorem at `c6Page`. -/
theorem page_to_event_end_keeps_own_tag_witness :
    c6Event.dtstart = DateValue.allDay ⟨2026, 1, 1⟩ ∧
    c6Event.dtend = some (DateValue.instant ⟨⟨2026, 1, 2⟩, 10, 0, 0, 0, some 0⟩) :=
  page_to_event_end_keeps_own_tag c6Page "db" witNow "Date"
    { type := "date",
      date := some ⟨some "2026-01-01", some "2026-01-02T10:00:00"⟩ }
    ⟨some "2026-01-01", some "2026-01-02T10:00:00"⟩
    "2026-01-01" "2026-01-02T10:00:00"
    (DateValue.allDay ⟨2026, 1, 1⟩)
    (DateValue.instant ⟨⟨2026, 1, 2⟩, 10, 0, 0, 0, some 0⟩) c6Event
    (by decide) rfl rfl (by decide) rfl (by decide) rfl

/-! ## `sync_database` (`notion_to_ical.py`, lines 298–323) and C10

The two network calls are parametrized by their outcomes: `remoteTitle`
is what `get_database_title` would return (it is consulted only when no
explicit name is configured), and `fetchedPages` is the record list
`fetch_database_pages` returns. The filesystem write at line 322 is the
`file_name`/`events` pair of the produced plan. -/

/-- One entry of the configured `NOTION_DATABASES` list. -/
structure DbConfig where
  id : String
  name : Option String
deriving DecidableEq

/-- What one database sync produces: the id used in the query and uid
derivation, the resolved display name, the built events in page order,
the skipped-page count, and the output file name. -/
structure SyncPlan where
  database_id : String
  calendar_name : String
  events : List Event
  skipped : Nat
  file_name : String
deriving DecidableEq

/-- Lines 309–314: map each page, collecting events and counting
skips; a raised `ValueError` propagates. -/
def buildEvents (pages : List RawPage) (database_id : String)
    (now : DateTime) : Except Unit (List Event × Nat) :=
  match pages with
  | [] => .ok ([], 0)
  | p :: rest =>
      match page_to_event p database_id now with
      | .error _ => .error ()
      | .ok none =>
          match buildEvents rest database_id now with
          | .error _ => .error ()
          | .ok (es, k) => .ok (es, k + 1)
      | .ok (some e) =>
          match buildEvents rest database_id now with
          | .error _ => .error ()
          | .ok (es, k) => .ok (e :: es, k)

/-- Line 319: the filesystem-safe transliteration of the display name
(`c.isalnum() or c in "-_ "`, everything else replaced by `_`). -/
def safeName (calendar_name : String) : String :=
  String.mk (calendar_name.data.map fun c =>
    if c.isAlphanum || c == '-' || c == '_' || c == ' ' then c else '_')

/-- Lines 298–323: `sync_database`. Line 300 strips the hyphens of the
configured id before anything else uses it. -/
def sync_database (db_config : DbConfig) (remoteTitle : String)
    (fetchedPages : List RawPage) (now : DateTime) :
    Except Unit SyncPlan :=
  let database_id := stripHyphens db_config.id
  let calendar_name :=
    match db_config.name with
    | some n => if n == "" then remoteTitle else n
    | none => remoteTitle
  match buildEvents fetchedPages database_id now with
  | .error _ => .error ()
  | .ok (events, skipped) =>
      .ok ⟨database_id, calendar_name, events, skipped,
        safeName calendar_name ++ ".ics"⟩

/-- Every event `page_to_event` builds carries the uid derived from the
database id it was called with and the page id. -/
theorem page_to_event_uid (page : RawPage) (database_id : String)
    (now : DateTime) (ev : Event)
    (h : page_to_event page database_id now = .ok (some ev)) :
    ev.uid = stable_uid database_id page.id := by
  simp only [page_to_event] at h
  repeat' split at h
  all_goals
    first
      | exact Option.noConfusion (Except.ok.inj h)
      | exact Except.noConfusion h
      | rw [← Option.some.inj (Except.ok.inj h)]

/-- Every event of a successful `buildEvents` run has the uid of some
fetched page under the given database id. -/
theorem buildEvents_uid (database_id : String) (now : DateTime) :
    ∀ (pages : List RawPage) (es : List Event) (k : Nat),
    buildEvents pages database_id now = .ok (es, k) →
    ∀ e ∈ es, ∃ p ∈ pages, e.uid = stable_uid database_id p.id := by
  intro pages
  induction pages with
  | nil =>
    intro es k h e he
    simp only [buildEvents] at h
    obtain ⟨h1, h2⟩ := Prod.mk.inj (Except.ok.inj h)
    rw [← h1] at he
    exact absurd he (List.not_mem_nil e)
  | cons p rest ih =>
    intro es k h e he
    simp only [buildEvents] at h
    split at h
    · exact Except.noConfusion h
    · split at h
      · exact Except.noConfusion h
      · next es0 k0 hs0 =>
        obtain ⟨h1, h2⟩ := Prod.mk.inj (Except.ok.inj h)
        rw [← h1] at he
        obtain ⟨q, hq, hu⟩ := ih es0 k0 hs0 e he
        exact ⟨q, List.mem_cons_of_mem _ hq, hu⟩
    · next ev hpe =>
      split at h
      · exact Except.noConfusion h
      · next es0 k0 hs0 =>
        obtain ⟨h1, h2⟩ := Prod.mk.inj (Except.ok.inj h)
        rw [← h1] at he
        rcases List.mem_cons.mp he with hee | hee
        · refine ⟨p, List.mem_cons_self _ _, ?_⟩
          rw [hee]
          exact page_to_event_uid p database_id now ev hpe
        · obtain ⟨q, hq, hu⟩ := ih es0 k0 hs0 e hee
          exact ⟨q, List.mem_cons_of_mem _ hq, hu⟩

/-- C10: line 300 strips every hyphen from the configured id before the
fetch and before uid derivation. First conjunct: a successful sync uses
the hyphen-stripped id as the query id, and every produced event uid is
the digest of the hyphen-stripped id and a fetched page id. Second
conjunct: two configurations whose ids agree after hyphen removal
produce identical plans (same query id, same events, same uids). -/
theorem sync_database_strips_hyphens :
    (∀ (cfg : DbConfig) (remoteTitle : String) (pages : List RawPage)
        (now : DateTime) (plan : SyncPlan),
      sync_database cfg remoteTitle pages now = .ok plan →
      plan.database_id = stripHyphens cfg.id ∧
      ∀ e ∈ plan.events, ∃ p ∈ pages,
        e.uid = stable_uid (stripHyphens cfg.id) p.id) ∧
    (∀ (id1 id2 : String) (nm : Option String) (remoteTitle : String)
        (pages : List RawPage) (now : DateTime),
      stripHyphens id1 = stripHyphens id2 →
      sync_database ⟨id1, nm⟩ remoteTitle pages now =
        sync_database ⟨id2, nm⟩ remoteTitle pages now) := by
  constructor
  · intro cfg remoteTitle pages now plan h
    simp only [sync_database] at h
    split at h
    · exact Except.noConfusion h
    · next events skipped hb =>
      rw [← Except.ok.inj h]
      exact ⟨rfl, fun e he => buildEvents_uid _ now pages events skipped hb e he⟩
  · intro id1 id2 nm remoteTitle pages now hid
    simp only [sync_database, hid]

/-- Witness for C10: `"ab-cd"` and `"a-bcd"` agree after hyphen
stripping; the plan of a one-page sync uses the stripped id and the
event uid is its digest. -/
theorem sync_database_strips_hyphens_witness :
    ((sync_database ⟨"ab-cd", some "Cal"⟩ "T" [c5Page] witNow =
        sync_database ⟨"a-bcd", some "Cal"⟩ "T" [c5Page] witNow) ∧
      stripHyphens "ab-cd" = stripHyphens "a-bcd") ∧
    (sync_database ⟨"ab-cd", some "Cal"⟩ "T" [c5Page] witNow =
        .ok ⟨"abcd", "Cal", [{ c5Event with uid := stable_uid "abcd" "p-5" }],
          0, "Cal.ics"⟩ ∧
      "abcd" = stripHyphens "ab-cd" ∧
      ∀ e ∈ [{ c5Event with uid := stable_uid "abcd" "p-5" }], ∃ p ∈ [c5Page],
        e.uid = stable_uid (stripHyphens "ab-cd") "p-5") := by
  have hplan : sync_database ⟨"ab-cd", some "Cal"⟩ "T" [c5Page] witNow =
      .ok ⟨"abcd", "Cal", [{ c5Event with uid := stable_uid "abcd" "p-5" }],
        0, "Cal.ics"⟩ := rfl
  refine ⟨⟨sync_database_strips_hyphens.2 "ab-cd" "a-bcd" (some "Cal") "T"
      [c5Page] witNow (by decide), by decide⟩, hplan, by decide, ?_⟩
  intro e he
  have h1 := (sync_database_strips_hyphens.1 ⟨"ab-cd", some "Cal"⟩ "T"
    [c5Page] witNow _ hplan).2 e he
  simpa using h1

/-! ## `main` (`notion_to_ical.py`, lines 326–355) and C4

Each configured database is represented by the outcome its
`sync_database` call would have: `ok`, or `exc` for a raised
`Exception`-derived error (the class the `except Exception` at line 351
catches). When `NOTION_TOKEN` is unset, the first network call of any
sync reaches `notion_headers`, whose `sys.exit` (lines 58–62) raises
`SystemExit` — a `BaseException` that `except Exception` does *not*
catch — so the loop is abandoned on the first database. `databasesJson`
is the `json.loads` outcome for `NOTION_DATABASES`. -/

/-- Outcome of one `sync_database` call under a set token. -/
inductive SyncOutcome
  | ok
  | exc
deriving DecidableEq

/-- How a run ends: `sys.exit` with a message (non-zero process exit),
or completion with the final `log.info` summary counts. -/
inductive RunResult
  | exited (msg : String)
  | completed (processed errors : Nat)
deriving DecidableEq

/-- Line 59–62: the `sys.exit` message of `notion_headers`. -/
def TOKEN_MSG : String :=
  "NOTION_TOKEN is not set. Add it to your .env file and try again."

/-- Lines 347–353: the per-database loop. `none` models a `SystemExit`
escaping the loop (missing token); otherwise the error counter
accumulates the caught exceptions. -/
def syncLoop (token : Option String) :
    List SyncOutcome → Nat → Option Nat
  | [], errors => some errors
  | o :: rest, errors =>
      if token.isNone then none
      else syncLoop token rest
        (errors + match o with | .exc => 1 | .ok => 0)

/-- Lines 326–355: `main`. -/
def mainRun (token : Option String)
    (databasesJson : Except String (List SyncOutcome)) : RunResult :=
  match databasesJson with
  | .error e =>
      .exited ("NOTION_DATABASES in .env is not valid JSON: " ++ e)
  | .ok databases =>
      if databases.isEmpty then
        .exited "No databases configured. Set NOTION_DATABASES in your .env file."
      else
        match syncLoop token databases 0 with
        | none => .exited TOKEN_MSG
        | some errors => .completed databases.length errors

/-- The number of databases whose sync raised a caught exception. -/
def countExc (dbs : List SyncOutcome) : Nat :=
  (dbs.filter fun o => o == SyncOutcome.exc).length

/-- C4 (counterexample): with a valid, non-empty database list but no
token, the run does not complete with a summary — the `SystemExit`
raised inside the first `sync_database` call escapes the
`except Exception` handler and aborts the loop. -/
theorem main_exits_on_missing_token :
    mainRun none (.ok [SyncOutcome.ok]) = .exited TOKEN_MSG ∧
    ∀ p e, mainRun none (.ok [SyncOutcome.ok]) ≠ .completed p e := by
  refine ⟨rfl, ?_⟩
  intro p e h
  simp [mainRun, syncLoop] at h

/-- With a token set, the loop always finishes, counting the caught
exceptions. -/
theorem syncLoop_some (t : String) :
    ∀ (dbs : List SyncOutcome) (errors : Nat),
    syncLoop (some t) dbs errors = some (errors + countExc dbs) := by
  intro dbs
  induction dbs with
  | nil => intro errors; simp [syncLoop, countExc]
  | cons o rest ih =>
    intro errors
    simp only [syncLoop, Option.isNone_some, if_false, ih, countExc,
      List.filter_cons, Bool.false_eq_true]
    cases o <;> simp [countExc]
    omega

/-- C4 (amended): provided the bearer token is configured, every
`Exception`-derived failure of one database sync is caught, the loop
continues, and the run always completes reporting the configured
database count and the number of failures; and the run exits (non-zero)
only when the token is absent or the top-level configuration is invalid
JSON or an empty list. -/
theorem main_isolates_failures :
    (∀ (t : String) (dbs : List SyncOutcome), dbs ≠ [] →
      mainRun (some t) (.ok dbs) = .completed dbs.length (countExc dbs)) ∧
    (∀ (token : Option String) (cfg : Except String (List SyncOutcome))
        (msg : String),
      mainRun token cfg = .exited msg →
      token = none ∨ (∃ e, cfg = .error e) ∨ cfg = .ok []) := by
  constructor
  · intro t dbs hne
    have hemp : dbs.isEmpty = false := by
      cases dbs with
      | nil => exact absurd rfl hne
      | cons a l => rfl
    simp [mainRun, hemp, syncLoop_some t dbs 0]
  · intro token cfg msg h
    match cfg with
    | .error e => exact Or.inr (Or.inl ⟨e, rfl⟩)
    | .ok dbs =>
      cases hdbs : dbs.isEmpty with
      | true =>
        refine Or.inr (Or.inr ?_)
        cases dbs with
        | nil => rfl
        | cons a l => exact Bool.noConfusion hdbs
      | false =>
        left
        cases token with
        | none => rfl
        | some t =>
          exfalso
          rw [mainRun.eq_def] at h
          simp only [hdbs, Bool.false_eq_true, if_false,
            syncLoop_some t dbs 0] at h
          exact RunResult.noConfusion h

/-- Witness for the amended C4 theorem: a three-database run with one
failure completes with counts (3, 1); a token-less run that exits hits
the permitted configuration-absent case. -/
theorem main_isolates_failures_witness :
    mainRun (some "tok")
        (.ok [SyncOutcome.ok, SyncOutcome.exc, SyncOutcome.ok]) =
      .completed 3 1 ∧
    ((none : Option String) = none ∨
      (∃ e, (Except.ok [SyncOutcome.ok] :
        Except String (List SyncOutcome)) = .error e) ∨
      (Except.ok [SyncOutcome.ok] :
        Except String (List SyncOutcome)) = .ok []) :=
  ⟨main_isolates_failures.1 "tok" [SyncOutcome.ok, SyncOutcome.exc,
      SyncOutcome.ok] (by decide),
   main_isolates_failures.2 none (.ok [SyncOutcome.ok]) TOKEN_MSG rfl⟩

/-! ## `build_calendar` (lines 278–291) and C9: text-escaping round-trip

`cal.to_ical()` (line 322) is implemented by the external `icalendar`
library, whose source is not part of this repository; its text handling
is modelled from the specification: serialization escapes text fields
per the exchange format (backslashes, semicolons, commas, newlines),
writes one `NAME:value` line per field, and lines are terminated by
CRLF. Parsing splits the lines back apart and unescapes. -/

/-- Lines 278–291: the calendar container `build_calendar` assembles,
one field per `cal.add` call plus the component list. -/
structure Calendar where
  prodid : String
  version : String
  calname : String
  x_wr_calname : String
  x_wr_timezone : String
  refresh_interval : String
  events : List Event
deriving DecidableEq

/-- Lines 278–291: `build_calendar`. -/
def build_calendar (calendar_name : String) (events : List Event) : Calendar :=
  ⟨"-//Notion to iCal Sync//EN", "2.0", calendar_name, calendar_name,
   "UTC", "PT5M", events⟩

/-- Modelled from the spec: the exchange format's TEXT escaping
(RFC 5545 §3.3.11, as the spec's §4.5 prescribes): backslash, semicolon
and comma get a backslash prefix, a newline becomes the two characters
`\n`. -/
def escapeText : List Char → List Char
  | [] => []
  | c :: rest =>
      if c == '\\' then '\\' :: '\\' :: escapeText rest
      else if c == ';' then '\\' :: ';' :: escapeText rest
      else if c == ',' then '\\' :: ',' :: escapeText rest
      else if c == '\n' then '\\' :: 'n' :: escapeText rest
      else c :: escapeText rest

/-- Modelled from the spec: TEXT unescaping — a backslash makes the
next character literal, with `\n` denoting a newline. -/
def unescapeText : List Char → List Char
  | [] => []
  | c :: rest =>
      if c == '\\' then
        match rest with
        | [] => [c]
        | d :: rest2 => (if d == 'n' then '\n' else d) :: unescapeText rest2
      else c :: unescapeText rest

/-- Modelled from the spec: the serialized text lines of one event —
its summary and description, each escaped behind its property name. -/
def serializeEventText (e : Event) : List (List Char) :=
  ["SUMMARY:".data ++ escapeText e.summary.data,
   "DESCRIPTION:".data ++ escapeText e.description.data]

/-- Modelled from the spec: CRLF-terminated wire lines. -/
def serializeLines (lines : List (List Char)) : List Char :=
  lines.flatMap fun l => l ++ ['\r', '\n']

/-- Modelled from the spec: the serialized text content of a calendar
(its events' text lines on the wire; the UTF-8 encoding of these
characters is the byte stream). -/
def serializeCalText (cal : Calendar) : List Char :=
  serializeLines (cal.events.flatMap serializeEventText)

/-- Split a CRLF-terminated character stream back into lines. -/
def splitLines (cs : List Char) : List (List Char) :=
  if h : cs = [] then []
  else
    let line := cs.takeWhile fun c => !(c == '\r')
    have : (cs.drop (line.length + 2)).length < cs.length := by
      have hpos : 0 < cs.length := List.length_pos.mpr h
      rw [List.length_drop]
      omega
    line :: splitLines (cs.drop (line.length + 2))
termination_by cs.length

/-- Parse the text lines back into `(summary, description)` pairs:
strip the property names, unescape, two lines per event. -/
def parseEventTexts : List (List Char) → List (String × String)
  | sline :: dline :: rest =>
      (String.mk (unescapeText (sline.drop 8)),
       String.mk (unescapeText (dline.drop 12))) :: parseEventTexts rest
  | _ => []

/-- Unescaping inverts escaping on every character list. -/
theorem unescape_escape (s : List Char) :
    unescapeText (escapeText s) = s := by
  induction s with
  | nil => rfl
  | cons c rest ih =>
    by_cases h1 : c == '\\'
    · rw [eq_of_beq h1]
      simp [escapeText, unescapeText, ih]
    · by_cases h2 : c == ';'
      · rw [eq_of_beq h2]
        simp [escapeText, unescapeText, ih]
      · by_cases h3 : c == ','
        · rw [eq_of_beq h3]
          simp [escapeText, unescapeText, ih]
        · by_cases h4 : c == '\n'
          · rw [eq_of_beq h4]
            simp [escapeText, unescapeText, ih]
          · have he : escapeText (c :: rest) = c :: escapeText rest := by
              simp only [escapeText, h1, h2, h3, h4, Bool.false_eq_true,
                if_false]
            have hu : unescapeText (c :: escapeText rest) =
                c :: unescapeText (escapeText rest) := by
              rw [unescapeText.eq_def]
              simp [h1]
            rw [he, hu, ih]

/-- Escaped text never contains a raw newline. -/
theorem escape_no_lf (s : List Char) : '\n' ∉ escapeText s := by
  induction s with
  | nil => simp [escapeText]
  | cons c rest ih =>
    by_cases h1 : c == '\\'
    · simp [escapeText, h1, ih]
    · by_cases h2 : c == ';'
      · simp [escapeText, h1, h2, ih]
      · by_cases h3 : c == ','
        · simp [escapeText, h1, h2, h3, ih]
        · by_cases h4 : c == '\n'
          · simp [escapeText, h1, h2, h3, h4, ih]
          · simp [escapeText, h1, h2, h3, h4, ih]
            exact fun e => absurd (e ▸ h4) (by simp)

/-- Escaping introduces no carriage return. -/
theorem escape_no_cr (s : List Char) (h : '\r' ∉ s) :
    '\r' ∉ escapeText s := by
  induction s with
  | nil => simp [escapeText]
  | cons c rest ih =>
    have hc : ¬ '\r' = c := fun e => h (e ▸ List.mem_cons_self c rest)
    have hr : '\r' ∉ rest := fun m => h (List.mem_cons_of_mem c m)
    by_cases h1 : c == '\\'
    · simp [escapeText, h1, ih hr]
    · by_cases h2 : c == ';'
      · simp [escapeText, h1, h2, ih hr]
      · by_cases h3 : c == ','
        · simp [escapeText, h1, h2, h3, ih hr]
        · by_cases h4 : c == '\n'
          · simp [escapeText, h1, h2, h3, h4, ih hr]
          · simp [escapeText, h1, h2, h3, h4, ih hr]
            exact hc

/-- A CR-free line is recovered by `takeWhile` at its terminator. -/
theorem takeWhile_no_cr (l rest : List Char) (h : '\r' ∉ l) :
    (l ++ '\r' :: rest).takeWhile (fun c => !(c == '\r')) = l := by
  induction l with
  | nil => simp
  | cons c l ih =>
    have hc : (c == '\r') = false := by
      cases hb : c == '\r' with
      | false => rfl
      | true => exact absurd (eq_of_beq hb ▸ List.mem_cons_self c l) h
    have hl : '\r' ∉ l := fun m => h (List.mem_cons_of_mem c m)
    simp [List.takeWhile_cons, hc, ih hl]

/-- Dropping a line and its CRLF terminator leaves the rest. -/
theorem drop_line_crlf (l rest : List Char) :
    (l ++ '\r' :: '\n' :: rest).drop (l.length + 2) = rest := by
  have he : l ++ '\r' :: '\n' :: rest = (l ++ ['\r', '\n']) ++ rest := by
    simp
  have hlen : (l ++ ['\r', '\n']).length = l.length + 2 := by simp
  rw [he, ← hlen, List.drop_left]

/-- Splitting inverts CRLF-serialization of LF-free lines. -/
theorem splitLines_serializeLines :
    ∀ lines : List (List Char), (∀ l ∈ lines, '\r' ∉ l ∧ '\n' ∉ l) →
    splitLines (serializeLines lines) = lines := by
  intro lines
  induction lines with
  | nil => intro _; simp [serializeLines, splitLines]
  | cons l rest ih =>
    intro h
    obtain ⟨hcr, _⟩ := h l (List.mem_cons_self l rest)
    have hser : serializeLines (l :: rest) =
        l ++ '\r' :: '\n' :: serializeLines rest := by
      simp [serializeLines]
    rw [hser, splitLines]
    have hne : ¬ (l ++ '\r' :: '\n' :: serializeLines rest = []) := by
      intro he
      have := congrArg List.length he
      simp at this
    rw [dif_neg hne]
    have htake : (l ++ '\r' :: '\n' :: serializeLines rest).takeWhile
        (fun c => !(c == '\r')) = l := takeWhile_no_cr l _ hcr
    simp only [htake, drop_line_crlf]
    rw [ih fun x hx => h x (List.mem_cons_of_mem l hx)]

/-- C9: serializing a calendar\'s events and parsing the result back
recovers every summary and description exactly — escaping makes the
round trip the identity, for text containing commas, semicolons,
newlines and backslashes (any text free of raw carriage returns). The
first conjunct is the field-level statement, the second the
calendar-level one. -/
theorem calendar_text_roundtrip :
    (∀ s : String, String.mk (unescapeText (escapeText s.data)) = s) ∧
    (∀ cal : Calendar,
      (∀ e ∈ cal.events, '\r' ∉ e.summary.data ∧ '\r' ∉ e.description.data) →
      parseEventTexts (splitLines (serializeCalText cal)) =
        cal.events.map fun e => (e.summary, e.description)) := by
  constructor
  · intro s
    rw [unescape_escape]
  · intro cal hcr
    have hsplit : splitLines (serializeCalText cal) =
        cal.events.flatMap serializeEventText := by
      apply splitLines_serializeLines
      intro l hl
      rw [List.mem_flatMap] at hl
      obtain ⟨e, he, hle⟩ := hl
      obtain ⟨hs, hd⟩ := hcr e he
      simp only [serializeEventText, List.mem_cons, List.not_mem_nil,
        or_false] at hle
      rcases hle with h | h
      · rw [h]
        constructor
        · intro hm
          rcases List.mem_append.mp hm with hm | hm
          · exact absurd hm (by decide)
          · exact escape_no_cr _ hs hm
        · intro hm
          rcases List.mem_append.mp hm with hm | hm
          · exact absurd hm (by decide)
          · exact escape_no_lf _ hm
      · rw [h]
        constructor
        · intro hm
          rcases List.mem_append.mp hm with hm | hm
          · exact absurd hm (by decide)
          · exact escape_no_cr _ hd hm
        · intro hm
          rcases List.mem_append.mp hm with hm | hm
          · exact absurd hm (by decide)
          · exact escape_no_lf _ hm
    rw [hsplit]
    clear hsplit hcr
    induction cal.events with
    | nil => rfl
    | cons e rest ih =>
      have hflat : (e :: rest).flatMap serializeEventText =
          ("SUMMARY:".data ++ escapeText e.summary.data) ::
          ("DESCRIPTION:".data ++ escapeText e.description.data) ::
          rest.flatMap serializeEventText := by
        simp [serializeEventText]
      rw [hflat, parseEventTexts]
      have hd8 : ("SUMMARY:".data ++ escapeText e.summary.data).drop 8 =
          escapeText e.summary.data := by
        rw [show (8 : Nat) = ("SUMMARY:".data).length from rfl, List.drop_left]
      have hd12 : ("DESCRIPTION:".data ++ escapeText e.description.data).drop 12 =
          escapeText e.description.data := by
        rw [show (12 : Nat) = ("DESCRIPTION:".data).length from rfl,
          List.drop_left]
      rw [hd8, hd12, unescape_escape, unescape_escape, ih]
      rfl

/-- Witness for C9: a calendar with one event whose summary and
description hold commas, semicolons, newlines and backslashes
round-trips exactly. -/
def c9Event : Event :=
  { c5Event with summary := "a,b;c\nd\\e", description := "x;y,z\n\\w" }

/-- Witness statement for the round trip at `c9Event`. -/
theorem calendar_text_roundtrip_witness :
    String.mk (unescapeText (escapeText ("a,b;c\nd\\e" : String).data)) =
      "a,b;c\nd\\e" ∧
    ((∀ e ∈ (build_calendar "Cal" [c9Event]).events,
      '\r' ∉ e.summary.data ∧ '\r' ∉ e.description.data) ∧
     parseEventTexts (splitLines (serializeCalText
        (build_calendar "Cal" [c9Event]))) =
       [("a,b;c\nd\\e", "x;y,z\n\\w")]) :=
  ⟨calendar_text_roundtrip.1 "a,b;c\nd\\e",
   by decide,
   calendar_text_roundtrip.2 (build_calendar "Cal" [c9Event]) (by decide)⟩

/-! ## The file server (`serve_ical.py`, lines 39–64) and C3

The handler reads one request path and the output directory's files.
The directory is the map from relative file name (as the decoded
request names it) to byte content; `Path(OUTPUT_DIR) / requested`
resolves inside the directory exactly when `requested` is relative,
which the leading-slash check enforces, so the lookup key is the
decoded name itself. `send_error` responses carry an HTML error page,
not calendar content; body, type and length are modelled as absent. -/

/-- The value of a hex digit, either case. -/
def hexVal? (c : Char) : Option Nat :=
  if '0' ≤ c && c ≤ '9' then some (c.toNat - 48)
  else if 'a' ≤ c && c ≤ 'f' then some (c.toNat - 87)
  else if 'A' ≤ c && c ≤ 'F' then some (c.toNat - 55)
  else none

/-- `urllib.parse.unquote` at byte granularity: a valid `%XX` escape
becomes the byte's character, an invalid one passes through and
scanning resumes after the `%`. (UTF-8 recombination of multi-byte
escapes is not modelled: the characters stand for the decoded bytes,
which is what the checks below inspect.) -/
def unquote : List Char → List Char
  | '%' :: a :: b :: rest =>
      match hexVal? a, hexVal? b with
      | some ha, some hb => Char.ofNat (16 * ha + hb) :: unquote rest
      | _, _ => '%' :: unquote (a :: b :: rest)
  | c :: rest => c :: unquote rest
  | [] => []

/-- `self.path.lstrip("/")`: remove every leading slash. -/
def lstripSlashes (s : List Char) : List Char :=
  s.dropWhile fun c => c == '/'

/-- `".." in requested`. -/
def hasDotDot : List Char → Bool
  | '.' :: '.' :: _ => true
  | _ :: rest => hasDotDot rest
  | [] => false

/-- `requested.startswith("/")`. -/
def startsWithSlash : List Char → Bool
  | '/' :: _ => true
  | _ => false

/-- `requested.endswith(".ics")`. -/
def endsWithIcs (l : List Char) : Bool :=
  match l.reverse with
  | 's' :: 'c' :: 'i' :: '.' :: _ => true
  | _ => false

/-- The output directory: relative file name ↦ byte content. -/
abbrev FileSystem := List (String × List Byte)

/-- `ics_path.exists()` and `ics_path.read_bytes()` in one step. -/
def lookupFile (fs : FileSystem) (name : String) : Option (List Byte) :=
  match fs.find? fun p => p.1 == name with
  | some p => some p.2
  | none => none

/-- What the handler sends back: status, and for a served file the
content type, content length and body. -/
structure HttpResponse where
  status : Nat
  contentType : Option String
  contentLength : Option Nat
  body : Option (List Byte)
deriving DecidableEq

/-- Line 41: strip leading slashes, then percent-decode. -/
def decodedRequest (path : String) : String :=
  String.mk (unquote (lstripSlashes path.data))

/-- Line 44: the request is rejected as malformed when the decoded path
contains the parent-directory token or is rooted (absolute — the one
way, after the leading-slash strip, for the joined path to escape the
output directory). -/
def malformedPath (path : String) : Bool :=
  hasDotDot (decodedRequest path).data ||
    startsWithSlash (decodedRequest path).data

/-- Lines 39–64: `ICalHandler.do_GET`. -/
def do_GET (fs : FileSystem) (path : String) : HttpResponse :=
  let requested := decodedRequest path
  if malformedPath path then ⟨400, none, none, none⟩
  else if !(endsWithIcs requested.data) then ⟨403, none, none, none⟩
  else
    match lookupFile fs requested with
    | none => ⟨404, none, none, none⟩
    | some content =>
        ⟨200, some "text/calendar; charset=utf-8", some content.length,
         some content⟩

/-- C3: the four-way response rule, exactly as the specification ranks
it — traversal or rooted path → 400; else a non-`.ics` path → 403;
else an absent file → 404; else 200 with the calendar MIME type and a
`Content-Length` equal to the file's exact byte length. -/
theorem do_GET_status_cases :
    ∀ (fs : FileSystem) (path : String),
    (malformedPath path = true →
      do_GET fs path = ⟨400, none, none, none⟩) ∧
    (malformedPath path = false →
      endsWithIcs (decodedRequest path).data = false →
      do_GET fs path = ⟨403, none, none, none⟩) ∧
    (malformedPath path = false →
      endsWithIcs (decodedRequest path).data = true →
      lookupFile fs (decodedRequest path) = none →
      do_GET fs path = ⟨404, none, none, none⟩) ∧
    (∀ content, malformedPath path = false →
      endsWithIcs (decodedRequest path).data = true →
      lookupFile fs (decodedRequest path) = some content →
      do_GET fs path =
        ⟨200, some "text/calendar; charset=utf-8", some content.length,
         some content⟩) := by
  intro fs path
  refine ⟨?_, ?_, ?_, ?_⟩
  · intro h1
    simp [do_GET, h1]
  · intro h1 h2
    simp [do_GET, h1, h2]
  · intro h1 h2 h3
    simp [do_GET, h1, h2, h3]
  · intro content h1 h2 h3
    simp [do_GET, h1, h2, h3]

/-- The output directory of the specification's acceptance example. -/
def c3Fs : FileSystem := [("Team Calendar.ics", [66, 69, 71])]

/-- Witness for C3: the specification's four example requests, one per
branch — traversal, wrong extension, missing file, and a served file
with exact length. -/
theorem do_GET_status_cases_witness :
    do_GET c3Fs "/../../etc/passwd.ics" = ⟨400, none, none, none⟩ ∧
    do_GET c3Fs "/notes.txt" = ⟨403, none, none, none⟩ ∧
    do_GET c3Fs "/Missing.ics" = ⟨404, none, none, none⟩ ∧
    do_GET c3Fs "/Team%20Calendar.ics" =
      ⟨200, some "text/calendar; charset=utf-8", some 3, some [66, 69, 71]⟩ :=
  ⟨(do_GET_status_cases c3Fs "/../../etc/passwd.ics").1 (by decide),
   (do_GET_status_cases c3Fs "/notes.txt").2.1 (by decide) (by decide),
   (do_GET_status_cases c3Fs "/Missing.ics").2.2.1 (by decide) (by decide)
     (by decide),
   (do_GET_status_cases c3Fs "/Team%20Calendar.ics").2.2.2 [66, 69, 71]
     (by decide) (by decide) (by decide)⟩

end NotionSync
